import Mathlib

/-!
Verification development for the DALS core (delay-driven approximate logic
synthesis, dals.cpp).  The network model follows the AIG interface of the
specification (section 6): a network is a list of objects, each with a stable
integer id, a kind (primary input, primary output, internal node, inverter)
and an ordered fan-in id list.  Fan-outs are the derived view: an object o is
a fan-out of t iff t occurs in o.fanins.  Edge complement attributes are not
exposed by any interface the core consumes, so fan-ins are plain ids.

Rational numbers stand in for IEEE doubles; every quantity the core computes
is a small rational (counts divided by 64*W), where this matters it is stated
explicitly.
-/

/-- Object kinds: primary input, primary output, internal node, and the
inverter object created by ObjCreateInv. -/
inductive ObjType where
  | pi
  | po
  | node
  | inv
deriving DecidableEq

/-- A network object: stable id, kind, ordered fan-in id list.  Fan-in order
is semantically significant. -/
structure Obj where
  id : Nat
  type : ObjType
  fanins : List Nat
deriving DecidableEq

/-- A logic network: the list of live objects. -/
structure Ntk where
  objs : List Obj
deriving DecidableEq

/-- The ids of the live objects, in list order. -/
def Ntk.ids (n : Ntk) : List Nat := n.objs.map Obj.id

/-- Look an object up by id. -/
def Ntk.lookupObj (n : Ntk) (i : Nat) : Option Obj :=
  n.objs.find? (fun o => decide (o.id = i))

/-- Rewrite one object for ObjReplace: every fan-in edge pointing at t now
points at r, preserving slot order. -/
def substMap (t r : Nat) (o : Obj) : Obj :=
  { o with fanins := o.fanins.map (fun x => if x = t then r else x) }

/-- ObjReplace (spec section 6): redirect every fan-out edge of t to r,
preserving slot order. -/
def ObjReplace (t r : Nat) (n : Ntk) : Ntk :=
  ⟨n.objs.map (substMap t r)⟩

/-- The fan-outs of t, in network order. -/
def ObjFanouts (n : Ntk) (t : Nat) : List Obj :=
  n.objs.filter (fun o => decide (t ∈ o.fanins))

/-- Append a fresh object to the network. -/
def ObjAdd (n : Ntk) (o : Obj) : Ntk := ⟨n.objs ++ [o]⟩

/-- Delete the object with the given id. -/
def ObjDelete (n : Ntk) (i : Nat) : Ntk :=
  ⟨n.objs.filter (fun o => decide (o.id ≠ i))⟩

/-- Set the fan-in list of the object with id f (helper for the two
primitives below). -/
def setFaninsL (M : List Obj) (f : Nat) (l : List Nat) : List Obj :=
  M.map (fun o => if o.id = f then { o with fanins := l } else o)

/-- Abc_ObjRemoveFanins: remove all fan-ins of the object with id f. -/
def ObjRemoveFanins (n : Ntk) (f : Nat) : Ntk :=
  ⟨setFaninsL n.objs f []⟩

/-- Abc_ObjAddFanin: append one fan-in to the object with id f. -/
def ObjAddFanin (n : Ntk) (f x : Nat) : Ntk :=
  ⟨n.objs.map (fun o => if o.id = f then { o with fanins := o.fanins ++ [x] } else o)⟩

/-- All ids occurring in the network, as object ids or inside fan-in lists. -/
def allIds (n : Ntk) : List Nat :=
  n.objs.foldr (fun o acc => o.id :: (o.fanins ++ acc)) []

/-- A fresh id: strictly larger than every id occurring in the network. -/
def freshId (n : Ntk) : Nat := (allIds n).foldr max 0 + 1

/-- ObjCreateInv (spec section 6): create a fresh inverter object whose single
fan-in is s; returns the extended network and the new id. -/
def ObjCreateInv (n : Ntk) (s : Nat) : Ntk × Nat :=
  let i := freshId n
  (ObjAdd n ⟨i, ObjType.inv, [s]⟩, i)

/-- Approximate local change (class ALC, dals.cpp): target, substitute,
complement flag, error, the inverter id recorded by Do, and the
construction-time snapshot: the target's fan-outs in network order, each
paired with its ordered fan-in list (dals.cpp 92-100). -/
structure ALC where
  target : Nat
  substitute : Nat
  is_complemented : Bool
  error : Rat
  inv : Nat
  snapshot : List (Nat × List Nat)
deriving DecidableEq

/-- ALC constructor (dals.cpp 92-100): snapshot the target's fan-outs and, for
each fan-out, its ordered fan-in list. -/
def mkALC (n : Ntk) (t s : Nat) (c : Bool) (e : Rat) : ALC :=
  ⟨t, s, c, e, 0, (ObjFanouts n t).map (fun o => (o.id, o.fanins))⟩

/-- ALC.Do (dals.cpp 52-58): if complemented, create an inverter on the
substitute and redirect the target's fan-outs to it; otherwise redirect them
to the substitute directly.  Returns the ALC with its inverter id recorded. -/
def ALC.Do (a : ALC) (n : Ntk) : ALC × Ntk :=
  if a.is_complemented then
    let p := ObjCreateInv n a.substitute
    ({ a with inv := p.2 }, ObjReplace a.target p.2 p.1)
  else
    (a, ObjReplace a.target a.substitute n)

/-- ALC.Recover (dals.cpp 71-77): delete the inverter when complemented, then
for each saved fan-out remove all of its current fan-ins and re-add the saved
ones in their original order. -/
def ALC.Recover (a : ALC) (n : Ntk) : Ntk :=
  let n1 := if a.is_complemented then ObjDelete n a.inv else n
  a.snapshot.foldl
    (fun m p => p.2.foldl (fun m2 x => ObjAddFanin m2 p.1 x) (ObjRemoveFanins m p.1)) n1

/-- The snapshot of the fan-outs of t in the object list L, as (id, fan-in
list) pairs. -/
def snapL (L : List Obj) (t : Nat) : List (Nat × List Nat) :=
  (L.filter (fun o => decide (t ∈ o.fanins))).map (fun o => (o.id, o.fanins))

/-- Restore a list of saved fan-in lists over an object list. -/
def foldSet (M : List Obj) (S : List (Nat × List Nat)) : List Obj :=
  S.foldl (fun m p => setFaninsL m p.1 p.2) M

theorem setFaninsL_cons (o : Obj) (M : List Obj) (f : Nat) (l : List Nat) :
    setFaninsL (o :: M) f l
      = (if o.id = f then { o with fanins := l } else o) :: setFaninsL M f l := rfl

theorem setFaninsL_of_not_mem {M : List Obj} {f : Nat} (l : List Nat)
    (h : f ∉ M.map Obj.id) : setFaninsL M f l = M := by
  induction M with
  | nil => rfl
  | cons o M ih =>
    simp only [List.map_cons, List.mem_cons, not_or] at h
    rw [setFaninsL_cons, if_neg (fun hc => h.1 hc.symm), ih h.2]

theorem foldSet_cons (M : List Obj) (p : Nat × List Nat) (S : List (Nat × List Nat)) :
    foldSet M (p :: S) = foldSet (setFaninsL M p.1 p.2) S := rfl

theorem foldSet_cons_skip {o : Obj} {M : List Obj} {S : List (Nat × List Nat)}
    (h : ∀ p ∈ S, p.1 ≠ o.id) : foldSet (o :: M) S = o :: foldSet M S := by
  induction S generalizing M with
  | nil => rfl
  | cons p S ih =>
    have hp : p.1 ≠ o.id := h p (List.mem_cons_self p S)
    have hstep : setFaninsL (o :: M) p.1 p.2 = o :: setFaninsL M p.1 p.2 := by
      rw [setFaninsL_cons, if_neg (fun hc => hp hc.symm)]
    rw [foldSet_cons, hstep, ih (fun q hq => h q (List.mem_cons_of_mem p hq))]
    rfl

theorem snapL_keys_sub {L : List Obj} {t : Nat} :
    ∀ p ∈ snapL L t, p.1 ∈ L.map Obj.id := by
  intro p hp
  simp only [snapL, List.mem_map] at hp
  obtain ⟨o, ho, rfl⟩ := hp
  exact List.mem_map_of_mem Obj.id (List.mem_of_mem_filter ho)

theorem map_subst_id {t r : Nat} (fs : List Nat) (h : t ∉ fs) :
    fs.map (fun x => if x = t then r else x) = fs := by
  induction fs with
  | nil => rfl
  | cons y ys ih =>
    simp only [List.mem_cons, not_or] at h
    rw [List.map_cons, if_neg (fun hc : y = t => h.1 hc.symm), ih h.2]

theorem substMap_of_not_mem {t r : Nat} {o : Obj} (h : t ∉ o.fanins) :
    substMap t r o = o := by
  unfold substMap
  rw [map_subst_id o.fanins h]

theorem ids_map_substMap (t r : Nat) (L : List Obj) :
    (L.map (substMap t r)).map Obj.id = L.map Obj.id := by
  simp [List.map_map, substMap, Function.comp]

theorem setFaninsL_cons_subst (t r : Nat) (o : Obj) (M : List Obj) :
    setFaninsL (substMap t r o :: M) o.id o.fanins = o :: setFaninsL M o.id o.fanins := by
  cases o with
  | mk i ty fs => simp [setFaninsL, substMap]

/-- Core of the apply/recover round trip: replacing t by r in every fan-in
slot and then restoring the snapshot of t's fan-outs yields the original
object list, provided object ids are distinct. -/
theorem foldSet_map_substMap (t r : Nat) (L : List Obj)
    (hnd : (L.map Obj.id).Nodup) :
    foldSet (L.map (substMap t r)) (snapL L t) = L := by
  induction L with
  | nil => rfl
  | cons o L ih =>
    simp only [List.map_cons, List.nodup_cons] at hnd
    obtain ⟨ho, hL⟩ := hnd
    have hskip : foldSet (o :: L.map (substMap t r)) (snapL L t)
        = o :: foldSet (L.map (substMap t r)) (snapL L t) :=
      foldSet_cons_skip (fun p hp hc => ho (hc ▸ snapL_keys_sub p hp))
    by_cases h : t ∈ o.fanins
    · have hsnap : snapL (o :: L) t = (o.id, o.fanins) :: snapL L t := by
        simp [snapL, List.filter_cons, h]
      have htail : setFaninsL (L.map (substMap t r)) o.id o.fanins = L.map (substMap t r) :=
        setFaninsL_of_not_mem _ (by rw [ids_map_substMap]; exact ho)
      rw [List.map_cons, hsnap, foldSet_cons]
      show foldSet (setFaninsL (substMap t r o :: L.map (substMap t r)) o.id o.fanins)
        (snapL L t) = o :: L
      rw [setFaninsL_cons_subst, htail, hskip, ih hL]
    · have hsnap : snapL (o :: L) t = snapL L t := by
        simp [snapL, List.filter_cons, h]
      rw [List.map_cons, hsnap, substMap_of_not_mem h, hskip, ih hL]

theorem addFanin_setFaninsL (M : List Obj) (f x : Nat) (l : List Nat) :
    (setFaninsL M f l).map
        (fun o => if o.id = f then { o with fanins := o.fanins ++ [x] } else o)
      = setFaninsL M f (l ++ [x]) := by
  unfold setFaninsL
  rw [List.map_map]
  apply List.map_congr_left
  intro o _
  cases o with
  | mk i ty fs =>
    by_cases h : i = f
    · simp [Function.comp, h]
    · simp [Function.comp, h]

theorem addFanins_fold (m : Ntk) (f : Nat) (xs l : List Nat) :
    xs.foldl (fun m2 x => ObjAddFanin m2 f x) ⟨setFaninsL m.objs f l⟩
      = ⟨setFaninsL m.objs f (l ++ xs)⟩ := by
  induction xs generalizing l with
  | nil => simp
  | cons x xs ih =>
    rw [List.foldl_cons]
    have h1 : ObjAddFanin ⟨setFaninsL m.objs f l⟩ f x = ⟨setFaninsL m.objs f (l ++ [x])⟩ := by
      show Ntk.mk ((setFaninsL m.objs f l).map _) = _
      rw [addFanin_setFaninsL]
    rw [h1, ih (l ++ [x])]
    simp

theorem recover_fold_eq (S : List (Nat × List Nat)) (m : Ntk) :
    S.foldl (fun m p => p.2.foldl (fun m2 x => ObjAddFanin m2 p.1 x) (ObjRemoveFanins m p.1)) m
      = ⟨foldSet m.objs S⟩ := by
  induction S generalizing m with
  | nil => rfl
  | cons p S ih =>
    rw [List.foldl_cons, foldSet_cons]
    have hstep : p.2.foldl (fun m2 x => ObjAddFanin m2 p.1 x) (ObjRemoveFanins m p.1)
        = ⟨setFaninsL m.objs p.1 p.2⟩ := by
      have h := addFanins_fold m p.1 p.2 []
      simpa using h
    rw [hstep]
    exact ih ⟨setFaninsL m.objs p.1 p.2⟩

theorem ALC.Recover_eq (a : ALC) (m : Ntk) :
    a.Recover m
      = ⟨foldSet (if a.is_complemented then ObjDelete m a.inv else m).objs a.snapshot⟩ := by
  unfold ALC.Recover
  exact recover_fold_eq a.snapshot _

theorem le_foldr_max {x : Nat} {l : List Nat} (h : x ∈ l) : x ≤ l.foldr max 0 := by
  induction l with
  | nil => cases h
  | cons y ys ih =>
    rcases List.mem_cons.mp h with h1 | h2
    · subst h1
      exact le_max_left _ _
    · exact le_trans (ih h2) (le_max_right _ _)

theorem id_mem_allIds_list {o : Obj} {L : List Obj} (h : o ∈ L) :
    o.id ∈ L.foldr (fun o acc => o.id :: (o.fanins ++ acc)) [] := by
  induction L with
  | nil => cases h
  | cons o2 L ih =>
    rcases List.mem_cons.mp h with h1 | h2
    · subst h1
      exact List.mem_cons_self _ _
    · exact List.mem_cons_of_mem _ (List.mem_append_right _ (ih h2))

theorem id_mem_allIds {n : Ntk} {o : Obj} (h : o ∈ n.objs) : o.id ∈ allIds n :=
  id_mem_allIds_list h

theorem id_lt_freshId {n : Ntk} {o : Obj} (h : o ∈ n.objs) : o.id < freshId n :=
  Nat.lt_succ_of_le (le_foldr_max (id_mem_allIds h))

/-- C1: for every ALC constructed on a network (snapshotting the target's
fan-outs and their ordered fan-in lists at construction), apply (Do) followed
by recover (Recover), with no other structural mutation in between, restores
the network exactly: every fan-in list returns element-for-element in its
original positional order, and in the complemented case the created inverter
is deleted.  Hypotheses: object ids are distinct and target differs from
substitute. -/
theorem alc_do_recover_roundtrip (n : Ntk) (t s : Nat) (c : Bool) (e : Rat)
    (hnd : (n.objs.map Obj.id).Nodup) (hts : t ≠ s) :
    ALC.Recover ((mkALC n t s c e).Do n).1 ((mkALC n t s c e).Do n).2 = n := by
  cases c with
  | false =>
    rw [show ((mkALC n t s false e).Do n).1 = mkALC n t s false e from rfl,
      show ((mkALC n t s false e).Do n).2 = ObjReplace t s n from rfl, ALC.Recover_eq]
    show Ntk.mk (foldSet (n.objs.map (substMap t s)) (snapL n.objs t)) = n
    rw [foldSet_map_substMap t s n.objs hnd]
  | true =>
    rw [show ((mkALC n t s true e).Do n).1
        = { mkALC n t s true e with inv := freshId n } from rfl,
      show ((mkALC n t s true e).Do n).2
        = ObjReplace t (freshId n) ⟨n.objs ++ [⟨freshId n, ObjType.inv, [s]⟩]⟩ from rfl,
      ALC.Recover_eq]
    show Ntk.mk (foldSet
      (((n.objs ++ [(⟨freshId n, ObjType.inv, [s]⟩ : Obj)]).map (substMap t (freshId n))).filter
        (fun o => decide (o.id ≠ freshId n)))
      (snapL n.objs t)) = n
    have hinv : substMap t (freshId n) ⟨freshId n, ObjType.inv, [s]⟩
        = ⟨freshId n, ObjType.inv, [s]⟩ :=
      substMap_of_not_mem (by simpa using hts)
    rw [List.map_append, show ([⟨freshId n, ObjType.inv, [s]⟩] : List Obj).map
        (substMap t (freshId n)) = [⟨freshId n, ObjType.inv, [s]⟩] by rw [List.map_cons, hinv]; rfl,
      List.filter_append]
    have h2 : ([⟨freshId n, ObjType.inv, [s]⟩] : List Obj).filter
        (fun o => decide (o.id ≠ freshId n)) = [] := by simp
    have h3 : (n.objs.map (substMap t (freshId n))).filter
        (fun o => decide (o.id ≠ freshId n)) = n.objs.map (substMap t (freshId n)) := by
      apply List.filter_eq_self.mpr
      intro o' ho'
      obtain ⟨o2, ho2, rfl⟩ := List.mem_map.mp ho'
      have hlt : o2.id < freshId n := id_lt_freshId ho2
      simpa using Nat.ne_of_lt hlt
    rw [h2, h3, List.append_nil, foldSet_map_substMap t (freshId n) n.objs hnd]

/-- Concrete network for the C1 witness: two primary inputs, an AND node 3,
and a primary output 4 driven by node 3. -/
def ntkC1 : Ntk :=
  ⟨[⟨1, ObjType.pi, []⟩, ⟨2, ObjType.pi, []⟩, ⟨3, ObjType.node, [1, 2]⟩,
    ⟨4, ObjType.po, [3]⟩]⟩

/-- Witness for C1 on a concrete network: the ALC replaces node 3 by input 1
in complemented mode; apply then recover restores the network. -/
theorem alc_do_recover_roundtrip_witness :
    (ntkC1.objs.map Obj.id).Nodup ∧ (3 : Nat) ≠ 1 ∧
    ALC.Recover ((mkALC ntkC1 3 1 true (1/2)).Do ntkC1).1
      ((mkALC ntkC1 3 1 true (1/2)).Do ntkC1).2 = ntkC1 :=
  ⟨by decide, by decide,
    alc_do_recover_roundtrip ntkC1 3 1 true (1/2) (by decide) (by decide)⟩

/-- Count of set bits among the lowest f binary digits of n. -/
def popCountAux : Nat → Nat → Nat
  | 0, _ => 0
  | f + 1, n => n % 2 + popCountAux f (n / 2)

/-- Population count of a 64-bit word, the model of
std::bitset<64>(x).count(): the number of set bits among the low 64 bits. -/
def popCount64 (n : Nat) : Nat := popCountAux 64 n

/-- DALS::EstSubPairError (dals.cpp 196-201): the number of set bits of the
word-wise XOR of the two truth vectors, divided by 64 times the word count.
The truth vector is a function from node id and word index to the 64-bit
word. -/
def EstSubPairError (tv : Nat → Nat → Nat) (W : Nat) (t s : Nat) : Rat :=
  ((∑ i ∈ Finset.range W, popCount64 ((tv t i) ^^^ (tv s i)) : Nat) : Rat) / (64 * (W : Rat))

theorem popCountAux_le (f : Nat) : ∀ n, popCountAux f n ≤ f := by
  induction f with
  | zero => intro n; exact Nat.le_refl 0
  | succ f ih =>
    intro n
    have h1 : n % 2 ≤ 1 := Nat.le_of_lt_succ (Nat.mod_lt n (by norm_num))
    calc n % 2 + popCountAux f (n / 2) ≤ 1 + f := Nat.add_le_add h1 (ih (n / 2))
      _ = f + 1 := Nat.add_comm 1 f

theorem popCountAux_eq_sum_testBit (f : Nat) :
    ∀ n, popCountAux f n = ∑ j ∈ Finset.range f, ((n.testBit j).toNat) := by
  induction f with
  | zero => intro n; rfl
  | succ f ih =>
    intro n
    rw [Finset.sum_range_succ']
    have h0 : (n.testBit 0).toNat = n % 2 := by
      rw [Nat.testBit_zero]
      rcases Nat.mod_two_eq_zero_or_one n with h | h <;> simp [h]
    have hs : ∀ j, (n.testBit (j + 1)).toNat = ((n / 2).testBit j).toNat := by
      intro j
      rw [Nat.testBit_add_one]
    calc popCountAux (f + 1) n = n % 2 + popCountAux f (n / 2) := rfl
      _ = n % 2 + ∑ j ∈ Finset.range f, (((n / 2).testBit j).toNat) := by rw [ih]
      _ = ∑ j ∈ Finset.range f, ((n.testBit (j + 1)).toNat) + (n.testBit 0).toNat := by
          rw [h0]
          simp only [hs]
          exact Nat.add_comm _ _

/-- C9: EstSubPairError returns the popcount of the bitwise XOR of the two
truth vectors over all 64*W bits divided by 64*W; the result lies in [0,1]
and the function is symmetric in its two arguments. -/
theorem est_sub_pair_error_spec (tv : Nat → Nat → Nat) (W : Nat) (t s : Nat) :
    EstSubPairError tv W t s
        = ((∑ i ∈ Finset.range W, ∑ j ∈ Finset.range 64,
            ((((tv t i) ^^^ (tv s i)).testBit j).toNat) : Nat) : Rat) / (64 * (W : Rat))
      ∧ 0 ≤ EstSubPairError tv W t s
      ∧ EstSubPairError tv W t s ≤ 1
      ∧ EstSubPairError tv W t s = EstSubPairError tv W s t := by
  have hnum : (∑ i ∈ Finset.range W, popCount64 ((tv t i) ^^^ (tv s i)))
      = ∑ i ∈ Finset.range W, ∑ j ∈ Finset.range 64,
          ((((tv t i) ^^^ (tv s i)).testBit j).toNat) :=
    Finset.sum_congr rfl (fun i _ => popCountAux_eq_sum_testBit 64 _)
  have hsym : (∑ i ∈ Finset.range W, popCount64 ((tv t i) ^^^ (tv s i)))
      = ∑ i ∈ Finset.range W, popCount64 ((tv s i) ^^^ (tv t i)) :=
    Finset.sum_congr rfl (fun i _ => by rw [Nat.xor_comm])
  refine ⟨?_, ?_, ?_, ?_⟩
  · unfold EstSubPairError
    rw [hnum]
  · unfold EstSubPairError
    apply div_nonneg (Nat.cast_nonneg _)
    have : (0 : Rat) ≤ (W : Rat) := Nat.cast_nonneg W
    linarith
  · unfold EstSubPairError
    rcases Nat.eq_zero_or_pos W with hW | hW
    · subst hW
      simp
    · have hpos : (0 : Rat) < 64 * (W : Rat) := by
        have hW2 : (0 : Rat) < (W : Rat) := by exact_mod_cast hW
        linarith
      rw [div_le_one hpos]
      have hsum : (∑ i ∈ Finset.range W, popCount64 ((tv t i) ^^^ (tv s i))) ≤ 64 * W := by
        calc (∑ i ∈ Finset.range W, popCount64 ((tv t i) ^^^ (tv s i)))
            ≤ (Finset.range W).card • 64 :=
              Finset.sum_le_card_nsmul _ _ 64 (fun x _ => popCountAux_le 64 _)
          _ = W * 64 := by simp [Finset.card_range]
          _ = 64 * W := Nat.mul_comm W 64
      calc ((∑ i ∈ Finset.range W, popCount64 ((tv t i) ^^^ (tv s i)) : Nat) : Rat)
          ≤ ((64 * W : Nat) : Rat) := by exact_mod_cast hsum
        _ = 64 * (W : Rat) := by push_cast; ring
  · unfold EstSubPairError
    rw [hsym]

/-- Candidate ALC construction (dals.cpp 150-156): if the substitute arrives
strictly more than one unit earlier than the target, complementation is
allowed: the complement flag is est_error > 1/2 and the stored error is
min(est_error, 1 - est_error); otherwise the flag is false and the stored
error is est_error unchanged. -/
def mkCand (apx : Ntk) (tv : Nat → Nat → Nat) (W : Nat) (ti : Nat → Int) (t s : Nat) : ALC :=
  if ti s < ti t - 1 then
    mkALC apx t s (decide (EstSubPairError tv W t s > 1/2))
      (min (EstSubPairError tv W t s) (1 - EstSubPairError tv W t s))
  else
    mkALC apx t s false (EstSubPairError tv W t s)

/-- Candidate enumeration for one target (dals.cpp 148-157): every s among
the topologically sorted PI and internal nodes with s distinct from t and
strictly earlier arrival time yields a candidate, in enumeration order. -/
def candFor (apx : Ntk) (tv : Nat → Nat → Nat) (W : Nat) (ti : Nat → Int)
    (sNodes : List Nat) (t : Nat) : List ALC :=
  sNodes.filterMap
    (fun s => if t ≠ s ∧ ti s < ti t then some (mkCand apx tv W ti t s) else none)

theorem mkALC_substitute (n : Ntk) (t s : Nat) (c : Bool) (e : Rat) :
    (mkALC n t s c e).substitute = s := rfl

theorem mkALC_is_complemented (n : Ntk) (t s : Nat) (c : Bool) (e : Rat) :
    (mkALC n t s c e).is_complemented = c := rfl

theorem mkALC_error (n : Ntk) (t s : Nat) (c : Bool) (e : Rat) :
    (mkALC n t s c e).error = e := rfl

/-- C4: every candidate produced with is_complemented = true has a substitute
arriving strictly more than one unit earlier than the target, an estimated
pair error exceeding 1/2, and a stored error equal to
min(est_error, 1 - est_error). -/
theorem cand_complemented_spec (apx : Ntk) (tv : Nat → Nat → Nat) (W : Nat)
    (ti : Nat → Int) (sNodes : List Nat) (t : Nat) (a : ALC)
    (ha : a ∈ candFor apx tv W ti sNodes t) (hc : a.is_complemented = true) :
    ti a.substitute < ti t - 1
      ∧ 1/2 < EstSubPairError tv W t a.substitute
      ∧ a.error = min (EstSubPairError tv W t a.substitute)
          (1 - EstSubPairError tv W t a.substitute) := by
  obtain ⟨s, _, hif⟩ := List.mem_filterMap.mp ha
  by_cases hcond : t ≠ s ∧ ti s < ti t
  · rw [if_pos hcond, Option.some.injEq] at hif
    subst hif
    by_cases harr : ti s < ti t - 1
    · have hred : mkCand apx tv W ti t s
          = mkALC apx t s (decide (EstSubPairError tv W t s > 1/2))
              (min (EstSubPairError tv W t s) (1 - EstSubPairError tv W t s)) := by
        unfold mkCand
        rw [if_pos harr]
      rw [hred] at hc ⊢
      rw [mkALC_is_complemented, decide_eq_true_eq] at hc
      rw [mkALC_substitute, mkALC_error]
      exact ⟨harr, hc, rfl⟩
    · have hred : mkCand apx tv W ti t s = mkALC apx t s false (EstSubPairError tv W t s) := by
        unfold mkCand
        rw [if_neg harr]
      rw [hred, mkALC_is_complemented] at hc
      cases hc
  · rw [if_neg hcond] at hif
    cases hif

/-- Truth vectors for the C4 witness: node 0 reads all-zero words, every
other node reads all-one words. -/
def tvC4 : Nat → Nat → Nat := fun n _ => if n = 0 then 0 else 2 ^ 64 - 1

/-- Arrival times for the C4 witness: target 0 arrives at 2, everything else
at 0. -/
def tiC4 : Nat → Int := fun n => if n = 0 then 2 else 0

/-- An empty network, used where the snapshot content is irrelevant. -/
def ntkE : Ntk := ⟨[]⟩

/-- The complemented candidate of the C4 witness. -/
def aC4 : ALC := mkCand ntkE tvC4 1 tiC4 0 1

/-- Witness for C4 at a concrete input: one substitute with estimated error 1
and arrival two units earlier. -/
theorem cand_complemented_spec_witness :
    aC4 ∈ candFor ntkE tvC4 1 tiC4 [1] 0 ∧ aC4.is_complemented = true ∧
    (tiC4 aC4.substitute < tiC4 0 - 1
      ∧ 1/2 < EstSubPairError tvC4 1 0 aC4.substitute
      ∧ aC4.error = min (EstSubPairError tvC4 1 0 aC4.substitute)
          (1 - EstSubPairError tvC4 1 0 aC4.substitute)) :=
  ⟨by with_unfolding_all decide, by with_unfolding_all decide,
    cand_complemented_spec ntkE tvC4 1 tiC4 [1] 0 aC4 (by with_unfolding_all decide)
      (by with_unfolding_all decide)⟩

/-- Truth vectors for the C3 counterexample: node 0 reads all-zero words,
every other node reads words with the low 48 bits set, so the estimated pair
error is 48/64 = 3/4. -/
def tvC3 : Nat → Nat → Nat := fun n _ => if n = 0 then 0 else 2 ^ 48 - 1

/-- Arrival times for the C3 counterexample: target 0 arrives at 1,
everything else at 0: the substitute passes the filter but complementation is
not allowed, so the estimated error is stored unclamped. -/
def tiC3 : Nat → Int := fun n => if n = 0 then 1 else 0

/-- Counterexample to C3 as stated: CalcALCs produces a candidate ALC whose
stored error is 3/4 > 1/2, out of the branch that stores est_error unclamped
(dals.cpp 156). -/
theorem cand_error_above_half :
    ∃ a ∈ candFor ntkE tvC3 1 tiC3 [1] 0, ¬ (a.error ≤ 1/2) := by
  with_unfolding_all decide

/-- C3 (amended): the stored error of every candidate ALC is at most the
estimated pair error of the pair, and it is at most 1/2 whenever the
substitute arrives strictly more than one unit earlier than the target (the
complementation-allowed branch); the remaining branch stores the estimated
error unclamped. -/
theorem cand_error_bound (apx : Ntk) (tv : Nat → Nat → Nat) (W : Nat)
    (ti : Nat → Int) (sNodes : List Nat) (t : Nat) (a : ALC)
    (ha : a ∈ candFor apx tv W ti sNodes t) :
    a.error ≤ EstSubPairError tv W t a.substitute
      ∧ (ti a.substitute < ti t - 1 → a.error ≤ 1/2) := by
  obtain ⟨s, _, hif⟩ := List.mem_filterMap.mp ha
  by_cases hcond : t ≠ s ∧ ti s < ti t
  · rw [if_pos hcond, Option.some.injEq] at hif
    subst hif
    by_cases harr : ti s < ti t - 1
    · have hred : mkCand apx tv W ti t s
          = mkALC apx t s (decide (EstSubPairError tv W t s > 1/2))
              (min (EstSubPairError tv W t s) (1 - EstSubPairError tv W t s)) := by
        unfold mkCand
        rw [if_pos harr]
      rw [hred, mkALC_substitute, mkALC_error]
      constructor
      · exact min_le_left _ _
      · intro _
        rcases le_or_lt (EstSubPairError tv W t s) (1/2) with h | h
        · exact le_trans (min_le_left _ _) h
        · have h2 : 1 - EstSubPairError tv W t s ≤ 1/2 := by linarith
          exact le_trans (min_le_right _ _) h2
    · have hred : mkCand apx tv W ti t s = mkALC apx t s false (EstSubPairError tv W t s) := by
        unfold mkCand
        rw [if_neg harr]
      rw [hred, mkALC_substitute, mkALC_error]
      exact ⟨le_refl _, fun hcontra => absurd hcontra harr⟩
  · rw [if_neg hcond] at hif
    cases hif

/-- Witness for the amended C3 at the counterexample input: the sole
candidate stores error 3/4, equal to its estimated pair error, and the
complementation-allowed bound holds vacuously. -/
theorem cand_error_bound_witness :
    (mkCand ntkE tvC3 1 tiC3 0 1) ∈ candFor ntkE tvC3 1 tiC3 [1] 0 ∧
    ((mkCand ntkE tvC3 1 tiC3 0 1).error
        ≤ EstSubPairError tvC3 1 0 (mkCand ntkE tvC3 1 tiC3 0 1).substitute
      ∧ (tiC3 (mkCand ntkE tvC3 1 tiC3 0 1).substitute < tiC3 0 - 1
          → (mkCand ntkE tvC3 1 tiC3 0 1).error ≤ 1/2)) :=
  ⟨by with_unfolding_all decide,
    cand_error_bound ntkE tvC3 1 tiC3 [1] 0 _ (by with_unfolding_all decide)⟩

/-- ObjIsNode: an internal node, including inverters created by rewriting. -/
def isNodeType : ObjType → Bool
  | ObjType.node => true
  | ObjType.inv => true
  | _ => false

/-- One Kahn step list: with fuel, repeatedly move the first object whose
fan-ins are all placed. -/
def topoLoop : Nat → List Obj → List Nat → List Nat
  | 0, _, placed => placed
  | f + 1, pending, placed =>
    match pending.find? (fun o => o.fanins.all (fun x => placed.contains x)) with
    | none => placed
    | some o => topoLoop f (pending.filter (fun p => p.id != o.id)) (placed ++ [o.id])

/-- Modelled from the spec: NtkTopoSortPINode (spec section 6,
topo_sort_pi_and_nodes) is external to src/.  Primary inputs first, then the
internal nodes in topological order. -/
def NtkTopoSortPINode (n : Ntk) : List Nat :=
  let pis := (n.objs.filter (fun o => decide (o.type = ObjType.pi))).map Obj.id
  let internals := n.objs.filter (fun o => isNodeType o.type)
  topoLoop internals.length internals pis

/-- Association-list lookup keyed by node id. -/
def lookupA {α : Type} : List (Nat × α) → Nat → Option α
  | [], _ => none
  | (k, v) :: r, i => if k = i then some v else lookupA r i

/-- Timing record of one node, as produced by the STA collaborator. -/
structure TimeInfo where
  arrival : Int
  required : Int
  slack : Int
deriving DecidableEq

/-- Modelled from the spec: the arrival-time half of calc_slack (spec
sections 3 and 6) is external to src/.  Unit-delay model: a PI arrives at 0,
an internal node one unit after its latest fan-in. -/
def arrivalMap (n : Ntk) : List (Nat × Int) :=
  (NtkTopoSortPINode n).foldl
    (fun acc i =>
      match n.lookupObj i with
      | none => acc
      | some o =>
        let a : Int :=
          if o.type = ObjType.pi then 0
          else 1 + (o.fanins.map (fun f => (lookupA acc f).getD 0)).foldr max 0
        acc ++ [(i, a)]) []

/-- Arrival time of one node. -/
def arrivalOf (n : Ntk) (i : Nat) : Int := (lookupA (arrivalMap n) i).getD 0

/-- Maximum delay: the largest arrival time over PO drivers. -/
def maxDelay (n : Ntk) : Int :=
  ((n.objs.filter (fun o => decide (o.type = ObjType.po))).map
    (fun o => arrivalOf n (o.fanins.headD 0))).foldr max 0

/-- Modelled from the spec: the required-time half of calc_slack is external
to src/.  Required time flows backward: maxDelay at a PO boundary, the
minimum over fan-outs of (required - 1) otherwise; a node with no fan-outs is
unconstrained and gets maxDelay. -/
def requiredMap (n : Ntk) : List (Nat × Int) :=
  (NtkTopoSortPINode n).reverse.foldl
    (fun acc u =>
      let fos := n.objs.filter (fun o => o.fanins.contains u)
      let rs := fos.map (fun o =>
        if o.type = ObjType.po then maxDelay n
        else (lookupA acc o.id).getD (maxDelay n) - 1)
      let r : Int :=
        match rs with
        | [] => maxDelay n
        | x :: xs => xs.foldl min x
      acc ++ [(u, r)]) []

/-- Modelled from the spec: calc_slack (spec section 6) is external to src/.
Slack is required minus arrival; a node is critical iff its slack is 0. -/
def CalcSlack (n : Ntk) (i : Nat) : TimeInfo :=
  let a := arrivalOf n i
  let r := (lookupA (requiredMap n) i).getD 0
  ⟨a, r, r - a⟩

/-- All 64 bits set. -/
def allOnes64 : Nat := 2 ^ 64 - 1

/-- Modelled from the spec: the bit-parallel simulator SimTruthVec (spec
section 4.A) is external to src/.  PIs read W pseudo-random words from the
rand parameter (masked to 64 bits); an internal node is the bitwise AND of
its fan-in vectors; an inverter complements its single fan-in; POs carry the
vector of their driver.  Edge polarities are not exposed by the interfaces
the core consumes and are omitted. -/
def SimTruthVec (rand : Nat → Nat → Nat) (W : Nat) (n : Ntk) : List (Nat × List Nat) :=
  (NtkTopoSortPINode n).foldl
    (fun acc i =>
      match n.lookupObj i with
      | none => acc
      | some o =>
        let ws :=
          match o.type with
          | ObjType.pi => (List.range W).map (fun j => rand i j &&& allOnes64)
          | ObjType.inv =>
            (List.range W).map (fun j =>
              allOnes64 ^^^ ((lookupA acc (o.fanins.headD 0)).getD []).getD j 0)
          | _ =>
            (List.range W).map (fun j =>
              o.fanins.foldl (fun w f => w &&& ((lookupA acc f).getD []).getD j 0) allOnes64)
        acc ++ [(i, ws)]) []

/-- View a truth-vector map as a total function: node id and word index to
word, defaulting to 0. -/
def tvFun (m : List (Nat × List Nat)) : Nat → Nat → Nat :=
  fun i j => ((lookupA m i).getD []).getD j 0

/-- Modelled from the spec: SimER (spec section 4.A simulate_error_rate) is
external to src/.  Both networks are simulated with the same PI words;
per-sample mismatches are OR-accumulated across corresponding POs (matched by
id); the result is the mismatching-bit count divided by 64*W. -/
def SimER (rand : Nat → Nat → Nat) (W : Nat) (a b : Ntk) : Rat :=
  let ta := tvFun (SimTruthVec rand W a)
  let tb := tvFun (SimTruthVec rand W b)
  let poDriver := fun (m : Ntk) (p : Nat) =>
    ((m.lookupObj p).map (fun o => o.fanins.headD 0)).getD 0
  let pos := (a.objs.filter (fun o => decide (o.type = ObjType.po))).map Obj.id
  let mm := fun j =>
    pos.foldl (fun acc p => acc ||| (ta (poDriver a p) j ^^^ tb (poDriver b p) j)) 0
  ((∑ j ∈ Finset.range W, popCount64 (mm j) : Nat) : Rat) / (64 * (W : Rat))

/-- Comparator of the CalcALCs ranking (dals.cpp 160-166): ascending stored
error. -/
def errLE (a b : ALC) : Prop := a.error ≤ b.error

instance : DecidableRel errLE := fun a b => inferInstanceAs (Decidable (a.error ≤ b.error))

instance : IsTotal ALC errLE := ⟨fun a b => le_total a.error b.error⟩

instance : IsTrans ALC errLE := ⟨fun _ _ _ => le_trans⟩

/-- The ranking step of CalcALCs (dals.cpp 158-167).  std::partial_sort (when
the list exceeds top_k) and std::sort (otherwise) are both determinized here
as one stable full sort: the sorted length-top_k prefix is a valid outcome of
either call, and only that prefix is consumed downstream (dals.cpp 179-180).
Neither source branch truncates the vector. -/
def sortCands (l : List ALC) : List ALC := List.insertionSort errLE l

/-- Phase 1 of CalcALCs for one target (dals.cpp 148-157): the candidate
list built from the truth vectors and arrival times of the approx network,
over the topologically sorted PI and internal nodes. -/
def phase1CandFor (apx : Ntk) (rand : Nat → Nat → Nat) (W : Nat) (t : Nat) : List ALC :=
  candFor apx (tvFun (SimTruthVec rand W apx)) W (arrivalOf apx) (NtkTopoSortPINode apx) t

/-- One refinement step (dals.cpp 181-184): apply the ALC, measure the
simulated error rate against the target network, recover, and record the
refined ALC. -/
def refineStep (rand : Nat → Nat → Nat) (W : Nat) (tgt : Ntk)
    (st : List ALC × Ntk) (alc : ALC) : List ALC × Ntk :=
  let p := alc.Do st.2
  let e := SimER rand W tgt p.2
  let n3 := ALC.Recover p.1 p.2
  (st.1 ++ [{ p.1 with error := e }], n3)

/-- std::map::emplace (dals.cpp 190): insert only when the key is absent,
never overwriting an existing entry. -/
def emplaceA {α : Type} (m : List (Nat × α)) (k : Nat) (v : α) : List (Nat × α) :=
  if (lookupA m k).isSome then m else m ++ [(k, v)]

/-- Phase 2 of CalcALCs for one target (dals.cpp 178-190): refine the first
top_k candidates (the loop breaks once k_alcs holds top_k entries), sort by
refined error, and take the front.  k_alcs.front() on an empty vector is
undefined behavior in the source; it is modelled as none. -/
def optFor (rand : Nat → Nat → Nat) (W : Nat) (tgt : Ntk) (k : Nat)
    (cands : List ALC) (apx : Ntk) : Option (ALC × Ntk) :=
  let p := (cands.take k).foldl (refineStep rand W tgt) ([], apx)
  match (sortCands p.1).head? with
  | none => none
  | some best => some (best, p.2)

/-- The per-target loop of phase 2 (dals.cpp 176-191), threading the network
and the opt_alc_ map. -/
def CalcALCsLoop (rand : Nat → Nat → Nat) (W : Nat) (tgt : Ntk) (k : Nat)
    (cands : Nat → List ALC) :
    List Nat → Ntk → List (Nat × ALC) → Option (List (Nat × ALC) × Ntk)
  | [], apx, opt => some (opt, apx)
  | t :: rest, apx, opt =>
    match optFor rand W tgt k (cands t) apx with
    | none => none
    | some (best, apx2) =>
      CalcALCsLoop rand W tgt k cands rest apx2 (emplaceA opt t best)

/-- DALS::CalcALCs (dals.cpp 130-194): build and rank the candidate list of
every target from the recomputed truth vectors, then refine the top-k per
target and emplace the winner into opt_alc_ (never overwriting an existing
entry).  Returns the candidate map, the updated opt map and the threaded
network; none models the undefined behavior of front() on an empty list. -/
def CalcALCs (rand : Nat → Nat → Nat) (W : Nat) (tgt apx : Ntk)
    (targets : List Nat) (k : Nat) (opt : List (Nat × ALC)) :
    Option (List (Nat × List ALC) × List (Nat × ALC) × Ntk) :=
  match CalcALCsLoop rand W tgt k (fun t => sortCands (phase1CandFor apx rand W t))
      targets apx opt with
  | none => none
  | some (opt2, apx2) =>
    some (targets.map (fun t => (t, sortCands (phase1CandFor apx rand W t))), opt2, apx2)

theorem CalcALCsLoop_cons (rand : Nat → Nat → Nat) (W : Nat) (tgt : Ntk) (k : Nat)
    (cands : Nat → List ALC) (t : Nat) (rest : List Nat) (apx : Ntk)
    (opt : List (Nat × ALC)) :
    CalcALCsLoop rand W tgt k cands (t :: rest) apx opt
      = match optFor rand W tgt k (cands t) apx with
        | none => none
        | some (best, apx2) =>
          CalcALCsLoop rand W tgt k cands rest apx2 (emplaceA opt t best) := rfl

theorem CalcALCs_cases (rand : Nat → Nat → Nat) (W : Nat) (tgt apx : Ntk)
    (targets : List Nat) (k : Nat) (opt : List (Nat × ALC)) :
    CalcALCs rand W tgt apx targets k opt = none
      ∨ ∃ opt2 apx2,
        CalcALCsLoop rand W tgt k (fun u => sortCands (phase1CandFor apx rand W u))
            targets apx opt = some (opt2, apx2)
        ∧ CalcALCs rand W tgt apx targets k opt
            = some (targets.map (fun u => (u, sortCands (phase1CandFor apx rand W u))),
                opt2, apx2) := by
  unfold CalcALCs
  cases hloop : CalcALCsLoop rand W tgt k (fun u => sortCands (phase1CandFor apx rand W u))
      targets apx opt with
  | none => left; rfl
  | some p =>
    obtain ⟨opt2, apx2⟩ := p
    right
    exact ⟨opt2, apx2, rfl, rfl⟩

theorem lookupA_map_graph {α : Type} (g : Nat → α) (ts : List Nat) (t : Nat)
    (ht : t ∈ ts) : lookupA (ts.map (fun u => (u, g u))) t = some (g t) := by
  induction ts with
  | nil => cases ht
  | cons u rest ih =>
    by_cases h : u = t
    · subst h
      simp [lookupA]
    · rcases List.mem_cons.mp ht with h1 | h2
      · exact absurd h1.symm h
      · simp only [List.map_cons, lookupA, if_neg h]
        exact ih h2

/-- C8 (amended): after a successful CalcALCs, the candidate list of each
target holds every candidate that passed the filter (the source never
truncates the vector), and its length-top_k prefix is the partial_sort
outcome: sorted ascending by stored error and bounded by everything after
it. -/
theorem cand_list_prefix_sorted (rand : Nat → Nat → Nat) (W : Nat) (tgt apx : Ntk)
    (targets : List Nat) (k : Nat) (opt : List (Nat × ALC)) (t : Nat)
    (ht : t ∈ targets)
    (hsome : (CalcALCs rand W tgt apx targets k opt).isSome = true) :
    (CalcALCs rand W tgt apx targets k opt).map (fun res => lookupA res.1 t)
        = some (some (sortCands (phase1CandFor apx rand W t)))
      ∧ (sortCands (phase1CandFor apx rand W t)).length = (phase1CandFor apx rand W t).length
      ∧ List.Sorted errLE ((sortCands (phase1CandFor apx rand W t)).take k)
      ∧ ∀ a ∈ (sortCands (phase1CandFor apx rand W t)).take k,
          ∀ b ∈ (sortCands (phase1CandFor apx rand W t)).drop k, errLE a b := by
  have hsorted : List.Sorted errLE (sortCands (phase1CandFor apx rand W t)) :=
    List.sorted_insertionSort errLE _
  refine ⟨?_, ?_, ?_, ?_⟩
  · rcases CalcALCs_cases rand W tgt apx targets k opt with h | ⟨opt2, apx2, _, heq⟩
    · rw [h] at hsome
      cases hsome
    · rw [heq, Option.map_some']
      rw [lookupA_map_graph (fun u => sortCands (phase1CandFor apx rand W u)) targets t ht]
  · exact (List.perm_insertionSort errLE _).length_eq
  · exact hsorted.sublist (List.take_sublist k _)
  · have hsplit := List.take_append_drop k (sortCands (phase1CandFor apx rand W t))
    rw [← hsplit] at hsorted
    exact (List.pairwise_append.mp hsorted).2.2

/-- Pseudo-random PI words for the C8 and C10 concrete networks. -/
def randC8 : Nat → Nat → Nat := fun i j => i + j

/-- Concrete network for C8 and C10: four PIs, two AND nodes, one PO; node 6
has five admissible substitutes. -/
def ntkC8 : Ntk :=
  ⟨[⟨1, ObjType.pi, []⟩, ⟨2, ObjType.pi, []⟩, ⟨3, ObjType.pi, []⟩, ⟨4, ObjType.pi, []⟩,
    ⟨5, ObjType.node, [1, 2]⟩, ⟨6, ObjType.node, [5, 3]⟩, ⟨7, ObjType.po, [6]⟩]⟩

/-- Counterexample to C8 as stated: with top_k = 2 and five candidates
passing the filter for target 6, the candidate list kept by CalcALCs has
length 5, not at most 2: partial_sort does not truncate. -/
theorem cand_list_not_truncated :
    ((CalcALCs randC8 1 ntkC8 ntkC8 [6] 2 []).map
        (fun res => (lookupA res.1 6).map List.length)) = some (some 5)
      ∧ ¬ (5 ≤ 2) := by
  with_unfolding_all decide

/-- Witness for the amended C8 at the concrete network. -/
theorem cand_list_prefix_sorted_witness :
    (6 : Nat) ∈ [6]
      ∧ (CalcALCs randC8 1 ntkC8 ntkC8 [6] 2 []).isSome = true
      ∧ ((CalcALCs randC8 1 ntkC8 ntkC8 [6] 2 []).map (fun res => lookupA res.1 6)
            = some (some (sortCands (phase1CandFor ntkC8 randC8 1 6)))
          ∧ (sortCands (phase1CandFor ntkC8 randC8 1 6)).length
              = (phase1CandFor ntkC8 randC8 1 6).length
          ∧ List.Sorted errLE ((sortCands (phase1CandFor ntkC8 randC8 1 6)).take 2)
          ∧ ∀ a ∈ (sortCands (phase1CandFor ntkC8 randC8 1 6)).take 2,
              ∀ b ∈ (sortCands (phase1CandFor ntkC8 randC8 1 6)).drop 2, errLE a b) :=
  ⟨by decide, by with_unfolding_all decide,
    cand_list_prefix_sorted randC8 1 ntkC8 ntkC8 [6] 2 [] 6 (by decide)
      (by with_unfolding_all decide)⟩

theorem optFor_nil (rand : Nat → Nat → Nat) (W : Nat) (tgt : Ntk) (k : Nat) (apx : Ntk) :
    optFor rand W tgt k [] apx = none := by
  unfold optFor
  rw [List.take_nil]
  rfl

theorem CalcALCsLoop_none_of_empty (rand : Nat → Nat → Nat) (W : Nat) (tgt : Ntk)
    (k : Nat) (cands : Nat → List ALC) (t : Nat) (hc : cands t = []) :
    ∀ (ts : List Nat) (apx : Ntk) (opt : List (Nat × ALC)), t ∈ ts →
      CalcALCsLoop rand W tgt k cands ts apx opt = none := by
  intro ts
  induction ts with
  | nil => intro apx opt h; cases h
  | cons u rest ih =>
    intro apx opt ht
    rw [CalcALCsLoop_cons]
    by_cases h : u = t
    · subst h
      rw [hc, optFor_nil]
    · rcases hopt : optFor rand W tgt k (cands u) apx with _ | ⟨best, apx2⟩
      · rfl
      · have h2 : t ∈ rest := by
          rcases List.mem_cons.mp ht with h1 | h1
          · exact absurd h1.symm h
          · exact h1
        exact ih apx2 (emplaceA opt u best) h2

/-- C5 (amended): when no substitute passes the arrival-time filter for some
target t, CalcALCs does not skip t: the refinement loop reaches front() of an
empty vector, undefined behavior in the source, modelled as failure; no
opt_alc map is produced at all. -/
theorem calcALCs_none_of_empty_cand (rand : Nat → Nat → Nat) (W : Nat) (tgt apx : Ntk)
    (targets : List Nat) (k : Nat) (opt : List (Nat × ALC)) (t : Nat)
    (ht : t ∈ targets) (hempty : phase1CandFor apx rand W t = []) :
    CalcALCs rand W tgt apx targets k opt = none := by
  have hc : (fun u => sortCands (phase1CandFor apx rand W u)) t = [] := by
    show sortCands (phase1CandFor apx rand W t) = []
    rw [hempty]
    rfl
  have hloop := CalcALCsLoop_none_of_empty rand W tgt k
    (fun u => sortCands (phase1CandFor apx rand W u)) t hc targets apx opt ht
  rcases CalcALCs_cases rand W tgt apx targets k opt with h | ⟨opt2, apx2, hl2, _⟩
  · exact h
  · rw [hloop] at hl2
    cases hl2

/-- Pseudo-random PI words for the C5 concrete input. -/
def randC5 : Nat → Nat → Nat := fun _ _ => 5

/-- Concrete network for C5: a single primary input, passed as the target
node, so that no substitute passes the arrival-time filter. -/
def ntkC5 : Ntk := ⟨[⟨1, ObjType.pi, []⟩]⟩

/-- Counterexample to C5 as stated: with an empty candidate list for target
1, CalcALCs does not complete without failure and produces no opt_alc entry:
it fails (front() of an empty vector). -/
theorem calcALCs_front_of_empty :
    phase1CandFor ntkC5 randC5 1 1 = []
      ∧ CalcALCs randC5 1 ntkC5 ntkC5 [1] 3 [] = none := by
  with_unfolding_all decide

/-- Witness for the amended C5 at the concrete input. -/
theorem calcALCs_none_of_empty_cand_witness :
    (1 : Nat) ∈ [1] ∧ phase1CandFor ntkC5 randC5 1 1 = []
      ∧ CalcALCs randC5 1 ntkC5 ntkC5 [1] 3 [] = none :=
  ⟨by decide, by with_unfolding_all decide,
    calcALCs_none_of_empty_cand randC5 1 ntkC5 ntkC5 [1] 3 [] 1 (by decide)
      (by with_unfolding_all decide)⟩

theorem lookupA_append_left {α : Type} {m : List (Nat × α)} {t : Nat} {a : α}
    (h : lookupA m t = some a) (m2 : List (Nat × α)) :
    lookupA (m ++ m2) t = some a := by
  induction m with
  | nil => cases h
  | cons p r ih =>
    obtain ⟨k, v⟩ := p
    by_cases hk : k = t
    · simp only [lookupA, if_pos hk] at h ⊢
      exact h
    · simp only [lookupA, if_neg hk] at h ⊢
      exact ih h

theorem emplaceA_keeps {α : Type} {m : List (Nat × α)} {t : Nat} {a : α}
    (h : lookupA m t = some a) (k : Nat) (v : α) :
    lookupA (emplaceA m k v) t = some a := by
  unfold emplaceA
  by_cases hs : (lookupA m k).isSome
  · rw [if_pos hs]
    exact h
  · rw [if_neg hs]
    exact lookupA_append_left h _

theorem CalcALCsLoop_preserves (rand : Nat → Nat → Nat) (W : Nat) (tgt : Ntk)
    (k : Nat) (cands : Nat → List ALC) (t : Nat) (a : ALC) :
    ∀ (ts : List Nat) (apx : Ntk) (opt opt2 : List (Nat × ALC)) (apx2 : Ntk),
      lookupA opt t = some a →
      CalcALCsLoop rand W tgt k cands ts apx opt = some (opt2, apx2) →
      lookupA opt2 t = some a := by
  intro ts
  induction ts with
  | nil =>
    intro apx opt opt2 apx2 h hl
    simp only [CalcALCsLoop, Option.some.injEq, Prod.mk.injEq] at hl
    rw [← hl.1]
    exact h
  | cons u rest ih =>
    intro apx opt opt2 apx2 h hl
    rw [CalcALCsLoop_cons] at hl
    rcases hopt : optFor rand W tgt k (cands u) apx with _ | ⟨best, apx3⟩
    · rw [hopt] at hl
      cases hl
    · rw [hopt] at hl
      exact ih apx3 (emplaceA opt u best) opt2 apx2 (emplaceA_keeps h u best) hl

/-- C10: an opt_alc_ entry that already exists for a target is left unchanged
by a later CalcALCs call with that target: std::map::emplace never
overwrites an existing key, so the freshly computed best ALC is discarded. -/
theorem calcALCs_keeps_existing_opt (rand : Nat → Nat → Nat) (W : Nat) (tgt apx : Ntk)
    (targets : List Nat) (k : Nat) (opt : List (Nat × ALC)) (t : Nat) (a : ALC)
    (hprev : lookupA opt t = some a)
    (hsome : (CalcALCs rand W tgt apx targets k opt).isSome = true) :
    (CalcALCs rand W tgt apx targets k opt).map (fun res => lookupA res.2.1 t)
      = some (some a) := by
  rcases CalcALCs_cases rand W tgt apx targets k opt with h | ⟨opt2, apx2, hloop, heq⟩
  · rw [h] at hsome
    cases hsome
  · rw [heq, Option.map_some']
    have hkeep := CalcALCsLoop_preserves rand W tgt k
      (fun u => sortCands (phase1CandFor apx rand W u)) t a targets apx opt opt2 apx2
      hprev hloop
    show some (lookupA opt2 t) = some (some a)
    rw [hkeep]

/-- The pre-existing opt_alc_ entry of the C10 witness. -/
def aC10 : ALC := mkALC ntkE 9 9 false 0

/-- The opt map holding a stale entry for node 6 before the CalcALCs call. -/
def optC10 : List (Nat × ALC) := [(6, aC10)]

/-- Witness for C10: CalcALCs on network ntkC8 recomputes candidates for
node 6 but the stale entry survives. -/
theorem calcALCs_keeps_existing_opt_witness :
    lookupA optC10 6 = some aC10
      ∧ (CalcALCs randC8 1 ntkC8 ntkC8 [6] 2 optC10).isSome = true
      ∧ (CalcALCs randC8 1 ntkC8 ntkC8 [6] 2 optC10).map (fun res => lookupA res.2.1 6)
          = some (some aC10) :=
  ⟨by with_unfolding_all decide, by with_unfolding_all decide,
    calcALCs_keeps_existing_opt randC8 1 ntkC8 ntkC8 [6] 2 optC10 6 aC10
      (by with_unfolding_all decide) (by with_unfolding_all decide)⟩

/-- A flow-graph arc with its rational capacity. -/
structure Edge where
  u : Nat
  v : Nat
  cap : Rat
deriving DecidableEq

/-- The value of std::numeric_limits<double>::max(), the +infinity stand-in
used by the source (dals.cpp 226, 233): the largest finite double, equal to
2 to the 1024 minus 2 to the 971, written as an explicit numeral so that it
evaluates. -/
def dblMax : Rat := Rat.divInt 179769313486231570814527423731704356798070567525844996598917476803157260780028538760589558632766878171540458953514382464234321326889464182768467546703537516986049910576551282076245490090389328944075868508455133942304583236903222948165808559332123348274797826204144723168738177180919299881250404026184124858368 1

/-- The value of std::numeric_limits<double>::min(), the sentinel capacity of
the source for zero-error ALCs (dals.cpp 229): the smallest positive normal
double, 2 to the minus 1022, written over an explicit numeral so that it
evaluates. -/
def dblMin : Rat := Rat.divInt 1 44942328371557897693232629769725618340449424473557664318357520289433168951375240783177119330601884005280028469967848339414697442203604155623211857659868531094441973356216371319075554900311523529863270738021251442209537670585615720368478277635206809290837627671146574559986811484619929076208839082406056034304

/-- ObjIsPI of the AIG interface. -/
def ObjIsPI (n : Ntk) (i : Nat) : Bool :=
  match n.lookupObj i with
  | some o => o.type = ObjType.pi
  | none => false

/-- ObjIsPONode of the AIG interface: an internal node that drives a PO. -/
def ObjIsPONode (n : Ntk) (i : Nat) : Bool :=
  (match n.lookupObj i with
   | some o => isNodeType o.type
   | none => false)
  && n.objs.any (fun o => decide (o.type = ObjType.po) && o.fanins.contains i)

/-- The arcs contributed by one critical PI or node (dals.cpp 224-234): a
critical PI gets source to id with infinite capacity; a critical internal
node v gets the node-internal arc id(v) to id(v)+N carrying opt_alc error
(the sentinel when that error is 0), plus an arc to the sink when v drives a
PO.  A missing opt_alc entry is the failing .at lookup, modelled as none. -/
def flowHead (apx : Ntk) (opt : List (Nat × ALC)) (N : Nat) (u : Nat) : Option (List Edge) :=
  if ObjIsPI apx u then some [⟨0, u, dblMax⟩]
  else
    match lookupA opt u with
    | none => none
    | some a =>
      if ObjIsPONode apx u then
        some [⟨u, u + N, if a.error = 0 then dblMin else a.error⟩, ⟨u + N, N - 1, dblMax⟩]
      else
        some [⟨u, u + N, if a.error = 0 then dblMin else a.error⟩]

/-- The first arc loop of a round (dals.cpp 223-235), over the critical PIs
and nodes in order. -/
def flowPisEdges (apx : Ntk) (opt : List (Nat × ALC)) (N : Nat) :
    List Nat → Option (List Edge)
  | [] => some []
  | u :: rest =>
    match flowHead apx opt N u, flowPisEdges apx opt N rest with
    | some h, some es => some (h ++ es)
    | _, _ => none

theorem flowHead_internal_mem (apx : Ntk) (opt : List (Nat × ALC)) (N : Nat)
    (u : Nat) (a : ALC) (h : List Edge) (hnpi : ObjIsPI apx u = false)
    (ha : lookupA opt u = some a) (hh : flowHead apx opt N u = some h) :
    (⟨u, u + N, if a.error = 0 then dblMin else a.error⟩ : Edge) ∈ h := by
  unfold flowHead at hh
  rw [hnpi] at hh
  simp only [Bool.false_eq_true, if_false, ha] at hh
  by_cases hpo : ObjIsPONode apx u
  · rw [if_pos hpo, Option.some.injEq] at hh
    rw [← hh]
    exact List.mem_cons_self _ _
  · rw [if_neg hpo, Option.some.injEq] at hh
    rw [← hh]
    exact List.mem_cons_self _ _

set_option exponentiation.threshold 1100 in
theorem dblMin_eq : dblMin = 1 / 2 ^ 1022 := by
  unfold dblMin
  rw [Rat.divInt_eq_div]
  norm_num

theorem sentinel_lt (W m : Nat) (hW : 0 < W) (hWb : W ≤ 2 ^ 1000) (hm : 1 ≤ m) :
    dblMin < (m : Rat) / (64 * (W : Rat)) := by
  have hWQ : (W : Rat) ≤ 2 ^ 1000 := by exact_mod_cast hWb
  have hW0 : (0 : Rat) < (W : Rat) := by exact_mod_cast hW
  have hmQ : (1 : Rat) ≤ (m : Rat) := by exact_mod_cast hm
  have hden : (0 : Rat) < 64 * (W : Rat) := by linarith
  rw [dblMin_eq]
  rw [div_lt_div_iff (by positivity) hden]
  have h0 : (64 : Rat) * 2 ^ 1000 = 2 ^ 1006 := by norm_num
  have h1 : (64 : Rat) * (W : Rat) ≤ 64 * 2 ^ 1000 :=
    mul_le_mul_of_nonneg_left hWQ (by norm_num)
  have h2 : (2 : Rat) ^ 1006 < 2 ^ 1022 := by norm_num
  have h3 : (2 : Rat) ^ 1022 ≤ (m : Rat) * 2 ^ 1022 :=
    le_mul_of_one_le_left (by positivity) hmQ
  linarith

theorem flowPisEdges_mem (apx : Ntk) (opt : List (Nat × ALC)) (N : Nat) :
    ∀ (pis0 : List Nat) (es : List Edge) (v : Nat) (a : ALC),
      flowPisEdges apx opt N pis0 = some es → v ∈ pis0 → ObjIsPI apx v = false →
      lookupA opt v = some a →
      (⟨v, v + N, if a.error = 0 then dblMin else a.error⟩ : Edge) ∈ es := by
  intro pis0
  induction pis0 with
  | nil => intro es v a _ hv; cases hv
  | cons u rest ih =>
    intro es v a hes hv hnpi ha
    unfold flowPisEdges at hes
    rcases hh : flowHead apx opt N u with _ | h
    · rw [hh] at hes
      cases hes
    · rcases hr : flowPisEdges apx opt N rest with _ | es2
      · rw [hh, hr] at hes
        cases hes
      · rw [hh, hr, Option.some.injEq] at hes
        rw [← hes]
        rcases List.mem_cons.mp hv with h1 | h2
        · subst h1
          exact List.mem_append_left _ (flowHead_internal_mem apx opt N v a h hnpi ha hh)
        · exact List.mem_append_right _ (ih es2 v a hr h2 hnpi ha)

/-- C7: in the round's flow graph, every critical internal node v with an
opt_alc entry contributes the node-internal arc id(v) to id(v)+N whose
capacity is the opt_alc error when that error is positive and the dblMin
sentinel otherwise; and when every opt_alc error is a simulated error rate
(a count over 64*W samples) with W at most 2^1000, the sentinel is strictly
below every positive opt_alc error of the round. -/
theorem flow_internal_arc_spec (apx : Ntk) (opt : List (Nat × ALC)) (N : Nat)
    (pis0 : List Nat) (v : Nat) (a : ALC) (W : Nat)
    (hsome : (flowPisEdges apx opt N pis0).isSome = true)
    (hv : v ∈ pis0) (hnpi : ObjIsPI apx v = false) (ha : lookupA opt v = some a)
    (herr : ∀ u b, lookupA opt u = some b → ∃ m : Nat, b.error = (m : Rat) / (64 * (W : Rat)))
    (hW : 0 < W) (hWb : W ≤ 2 ^ 1000) :
    (⟨v, v + N, if a.error = 0 then dblMin else a.error⟩ : Edge)
        ∈ (flowPisEdges apx opt N pis0).getD []
      ∧ ∀ u b, lookupA opt u = some b → 0 < b.error → dblMin < b.error := by
  constructor
  · rcases hes : flowPisEdges apx opt N pis0 with _ | es
    · rw [hes] at hsome
      simp at hsome
    · exact flowPisEdges_mem apx opt N pis0 es v a hes hv hnpi ha
  · intro u b hub hpos
    obtain ⟨m, hm⟩ := herr u b hub
    rcases Nat.eq_zero_or_pos m with hm0 | hm1
    · subst hm0
      rw [hm] at hpos
      simp at hpos
    · rw [hm]
      exact sentinel_lt W m hW hWb hm1

/-- Concrete network for the C7 witness: PI 1, critical node 5 driving PO 6. -/
def ntkC7 : Ntk := ⟨[⟨1, ObjType.pi, []⟩, ⟨5, ObjType.node, [1]⟩, ⟨6, ObjType.po, [5]⟩]⟩

/-- The opt_alc entry of node 5 for the C7 witness, refined error 3/64. -/
def aC7 : ALC := mkALC ntkC7 5 1 false (3 / 64)

/-- The opt map of the C7 witness. -/
def optC7 : List (Nat × ALC) := [(5, aC7)]

/-- Witness for C7 at a concrete round: W = 1, node 5 carries error 3/64. -/
theorem flow_internal_arc_spec_witness :
    (flowPisEdges ntkC7 optC7 8 [1, 5]).isSome = true
      ∧ (5 : Nat) ∈ [1, 5] ∧ ObjIsPI ntkC7 5 = false ∧ lookupA optC7 5 = some aC7
      ∧ 0 < 1 ∧ 1 ≤ 2 ^ 1000
      ∧ ((⟨5, 5 + 8, if aC7.error = 0 then dblMin else aC7.error⟩ : Edge)
            ∈ (flowPisEdges ntkC7 optC7 8 [1, 5]).getD []
          ∧ ∀ u b, lookupA optC7 u = some b → 0 < b.error → dblMin < b.error) := by
  have herr : ∀ u b, lookupA optC7 u = some b
      → ∃ m : Nat, b.error = (m : Rat) / (64 * ((1 : Nat) : Rat)) := by
    intro u b hub
    by_cases h : (5 : Nat) = u
    · refine ⟨3, ?_⟩
      have hb : aC7 = b := by
        simp only [optC7, lookupA, if_pos h, Option.some.injEq] at hub
        exact hub
      rw [← hb]
      with_unfolding_all decide
    · simp only [optC7, lookupA, if_neg h] at hub
      cases hub
  refine ⟨by with_unfolding_all decide, by decide, by with_unfolding_all decide,
    by with_unfolding_all decide, by decide, Nat.one_le_two_pow, ?_⟩
  exact flow_internal_arc_spec ntkC7 optC7 8 [1, 5] 5 aC7 1
    (by with_unfolding_all decide) (by decide) (by with_unfolding_all decide)
    (by with_unfolding_all decide) herr (by decide) Nat.one_le_two_pow

/-- ObjIsNode of the AIG interface: the object is an internal node. -/
def ObjIsNode (n : Ntk) (i : Nat) : Bool :=
  match n.lookupObj i with
  | some o => isNodeType o.type
  | none => false

/-- Modelled from the spec: GetCriticalGraph (spec sections 3 and 6) is
external to src/.  An arc u to v is critical when v is an internal fan-out of
u, both endpoints have slack 0, and the arc lies on a critical path, i.e.
arrival v = arrival u + 1. -/
def GetCriticalGraph (n : Ntk) : List (Nat × Nat) :=
  n.objs.foldr (fun o acc =>
    if isNodeType o.type ∧ (CalcSlack n o.id).slack = 0 then
      (o.fanins.filter (fun u =>
        decide ((CalcSlack n u).slack = 0 ∧ arrivalOf n o.id = arrivalOf n u + 1))).map
        (fun u => (u, o.id)) ++ acc
    else acc) []

/-- The critical-graph arc loop of a round (dals.cpp 237-244): each critical
arc u to v becomes a flow arc from u (a PI) or u+N (a node) to v, with
infinite capacity. -/
def flowCritEdges (apx : Ntk) (N : Nat) : List Edge :=
  (GetCriticalGraph apx).map (fun p =>
    if ObjIsPI apx p.1 then ⟨p.1, p.2, dblMax⟩ else ⟨p.1 + N, p.2, dblMax⟩)

/-- Residual arcs leaving u: forward arcs with remaining capacity and
backward arcs with positive flow, each tagged with its edge index and
direction. -/
def adjArcs (edges : List Edge) (flows : List Rat) (u : Nat) : List (Nat × Nat × Bool) :=
  (edges.zip flows).enum.foldr (fun q acc =>
    let acc1 := if q.2.1.v = u ∧ 0 < q.2.2 then (q.2.1.u, q.1, false) :: acc else acc
    if q.2.1.u = u ∧ 0 < q.2.1.cap - q.2.2 then (q.2.1.v, q.1, true) :: acc1 else acc1) []

/-- Breadth-first search for an augmenting path in the residual graph,
carrying the residual path of each frontier entry; fuel-indexed. -/
def bfsAux (edges : List Edge) (flows : List Rat) (t : Nat) :
    Nat → List (Nat × List (Nat × Bool)) → List Nat → Option (List (Nat × Bool))
  | 0, _, _ => none
  | _ + 1, [], _ => none
  | fuel + 1, (u, path) :: rest, visited =>
    if u = t then some path.reverse
    else
      let nbrs := (adjArcs edges flows u).filter (fun x => ! visited.contains x.1)
      bfsAux edges flows t fuel
        (rest ++ nbrs.map (fun x => (x.1, (x.2.1, x.2.2) :: path)))
        (visited ++ nbrs.map (fun x => x.1))

/-- The residual capacities along a path. -/
def pathResiduals (edges : List Edge) (flows : List Rat) (path : List (Nat × Bool)) :
    List Rat :=
  path.map (fun st =>
    match (edges.zip flows).get? st.1 with
    | some q => if st.2 then q.1.cap - q.2 else q.2
    | none => 0)

/-- Minimum of a list of rationals, 0 when empty. -/
def listMin : List Rat → Rat
  | [] => 0
  | x :: xs => xs.foldl min x

/-- Push the bottleneck amount along an augmenting path. -/
def augment (edges : List Edge) (flows : List Rat) (path : List (Nat × Bool)) : List Rat :=
  let d := listMin (pathResiduals edges flows path)
  flows.enum.map (fun q =>
    if path.contains (q.1, true) then q.2 + d
    else if path.contains (q.1, false) then q.2 - d
    else q.2)

/-- Augmenting-path max-flow loop, fuel-indexed. -/
def maxFlowLoop (edges : List Edge) (numV s t : Nat) : Nat → List Rat → List Rat
  | 0, flows => flows
  | fuel + 1, flows =>
    match bfsAux edges flows t (2 * numV + 2) [(s, [])] [s] with
    | none => flows
    | some path => maxFlowLoop edges numV s t fuel (augment edges flows path)

/-- Residual reachability from the source after max flow, fuel-indexed. -/
def reachLoop (edges : List Edge) (flows : List Rat) : Nat → List Nat → List Nat
  | 0, acc => acc
  | fuel + 1, acc =>
    let nxt := acc.foldr (fun u l => (adjArcs edges flows u).map (fun x => x.1) ++ l) []
    let fresh := nxt.filter (fun v => ! acc.contains v)
    if fresh.isEmpty then acc else reachLoop edges flows fuel (acc ++ fresh)

/-- Modelled from the spec: Dinic::MinCut (spec section 6) is external to
src/.  Realized as augmenting-path max flow with fuel, followed by the
saturating arcs that cross from the residual-reachable source side; on the
concrete instances exercised here the fuel is ample. -/
def MinCut (edges : List Edge) (numV s t : Nat) : List Edge :=
  let flows := maxFlowLoop edges numV s t (edges.length * 64 + 16)
    (edges.map (fun _ => (0 : Rat)))
  let r := reachLoop edges flows (numV + 1) [s]
  (edges.zip flows).foldr (fun q acc =>
    if r.contains q.1.u ∧ ¬ r.contains q.1.v then q.1 :: acc else acc) []

/-- Application of the cut ALCs (dals.cpp 256-263): for each cut arc, look up
the opt_alc of its tail node and apply it permanently; a missing entry is the
failing .at lookup, modelled as none. -/
def applyCut (opt : List (Nat × ALC)) : List Edge → Ntk → Option Ntk
  | [], apx => some apx
  | e :: rest, apx =>
    match lookupA opt e.u with
    | none => none
    | some a => applyCut opt rest (a.Do apx).2

/-- The mutable state of DALS::Run: the immutable target network, the
working approx network, the persistent opt_alc_ map, and the running error. -/
structure RunState where
  tgt : Ntk
  apx : Ntk
  optAlc : List (Nat × ALC)
  err : Rat
deriving DecidableEq

/-- One round of DALS::Run (dals.cpp 206-269): recompute slack, collect the
critical PIs and nodes, compute ALCs for the critical internal nodes with
top_k 3, build the split-node flow graph over N = max id + 2 vertices with
source 0 and sink N-1, take the min cut, apply the cut ALCs permanently, and
re-simulate the error rate. -/
def RunRound (rand : Nat → Nat → Nat) (W : Nat) (st : RunState) : Option RunState :=
  let pisNodes0 := (NtkTopoSortPINode st.apx).filter
    (fun u => decide ((CalcSlack st.apx u).slack = 0))
  let nodes0 := pisNodes0.filter (fun u => ObjIsNode st.apx u)
  match CalcALCs rand W st.tgt st.apx nodes0 3 st.optAlc with
  | none => none
  | some (_, opt2, apx2) =>
    let N := (apx2.objs.map Obj.id).foldr max 0 + 2
    match flowPisEdges apx2 opt2 N pisNodes0 with
    | none => none
    | some es1 =>
      let cut := MinCut (es1 ++ flowCritEdges apx2 N) (2 * N) 0 (N - 1)
      match applyCut opt2 cut apx2 with
      | none => none
      | some apx3 => some ⟨st.tgt, apx3, opt2, SimER rand W st.tgt apx3⟩

/-- Result of a fuel-indexed run: normal exit, a fatal lookup failure, or
fuel exhaustion (the loop still running). -/
inductive RunRes where
  | done (st : RunState)
  | fatal
  | fuelOut
deriving DecidableEq

/-- DALS::Run (dals.cpp 203-328): loop rounds while err < err_constraint.
The only exit of the source loop is the guard err < err_constraint; the fuel
only bounds the observation window. -/
def RunFuel (rand : Nat → Nat → Nat) (W : Nat) (c : Rat) : Nat → RunState → RunRes
  | 0, _ => RunRes.fuelOut
  | fuel + 1, st =>
    if st.err < c then
      match RunRound rand W st with
      | none => RunRes.fatal
      | some st2 => RunFuel rand W c fuel st2
    else RunRes.done st

/-- C6 (amended): the outer loop of Run exits normally only when the
simulated error rate has reached or exceeded err_constraint; the loop guard
is its sole exit, and no no-progress detection exists. -/
theorem run_terminates_only_at_err (rand : Nat → Nat → Nat) (W : Nat) (c : Rat)
    (fuel : Nat) (st r : RunState)
    (h : RunFuel rand W c fuel st = RunRes.done r) : c ≤ r.err := by
  induction fuel generalizing st with
  | zero => cases h
  | succ f ih =>
    by_cases hlt : st.err < c
    · rw [show RunFuel rand W c (f + 1) st
          = (if st.err < c then
              match RunRound rand W st with
              | none => RunRes.fatal
              | some st2 => RunFuel rand W c f st2
            else RunRes.done st) from rfl, if_pos hlt] at h
      rcases hr : RunRound rand W st with _ | st2
      · rw [hr] at h
        cases h
      · rw [hr] at h
        exact ih st2 h
    · rw [show RunFuel rand W c (f + 1) st
          = (if st.err < c then
              match RunRound rand W st with
              | none => RunRes.fatal
              | some st2 => RunFuel rand W c f st2
            else RunRes.done st) from rfl, if_neg hlt] at h
      cases h
      exact le_of_not_lt hlt

/-- Pseudo-random PI words of the C6 concrete run. -/
def randC6 : Nat → Nat → Nat := fun _ _ => 3

/-- The C6 concrete network: one PI directly driving one PO; its only
critical node is the PI, so no internal node is cuttable and a round changes
nothing. -/
def ntkC6 : Ntk := ⟨[⟨1, ObjType.pi, []⟩, ⟨2, ObjType.po, [1]⟩]⟩

/-- The C6 run state: approx equals target, error 0. -/
def stC6 : RunState := ⟨ntkC6, ntkC6, [], 0⟩

/-- Witness for the amended C6: with err_constraint 0 the loop exits at once
and the final error is at or above the constraint. -/
theorem run_terminates_only_at_err_witness :
    RunFuel randC6 1 0 1 stC6 = RunRes.done stC6 ∧ (0 : Rat) ≤ stC6.err :=
  ⟨by with_unfolding_all decide,
    run_terminates_only_at_err randC6 1 0 1 stC6 stC6 (by with_unfolding_all decide)⟩

/-- Counterexample to C6 as stated: on the concrete network the round makes
no progress (the state is a fixed point of RunRound) and the error stays
below the constraint, yet Run never terminates: there is no no-progress
detection in the loop. -/
theorem run_no_progress_loops_forever :
    ¬ ∃ (fuel : Nat) (r : RunState), RunFuel randC6 1 (1/2) fuel stC6 = RunRes.done r := by
  have hround : RunRound randC6 1 stC6 = some stC6 := by with_unfolding_all decide
  have hlt : stC6.err < 1/2 := by with_unfolding_all decide
  have hall : ∀ fuel, RunFuel randC6 1 (1/2) fuel stC6 = RunRes.fuelOut := by
    intro fuel
    induction fuel with
    | zero => rfl
    | succ f ih =>
      rw [show RunFuel randC6 1 (1/2) (f + 1) stC6
          = (if stC6.err < 1/2 then
              match RunRound randC6 1 stC6 with
              | none => RunRes.fatal
              | some st2 => RunFuel randC6 1 (1/2) f st2
            else RunRes.done stC6) from rfl, if_pos hlt, hround]
      exact ih
  rintro ⟨fuel, r, hr⟩
  rw [hall fuel] at hr
  cases hr
